import Mathlib

/-!
Verification development for the stonehenge serializer core
(aethelwerka.foundation.{diagnostics,platform,serializer} and the
aethelwerka.service.zip consumer).

The C++ sources are shallowly embedded:

* machine values are modelled by their object representation, a `List Nat`
  of bytes in native order (the supported targets in
  platform_configuration.hxx are little-endian, so native = little);
* the `std::fstream` backing a `FileStreamImplementation` is modelled by
  `FStream`: the byte contents of the file, one joint get/put position
  (a `std::filebuf` keeps a single file position for reads and writes),
  and the `eofbit`/`failbit` state flags;
* the `Serializer` member functions become functions
  `FStream -> SerResult _`; the `expect(...)` precondition check of the
  diagnostics layer, whose `internal::on_assert` is `[[noreturn]]` and
  calls `std::exit(EXIT_FAILURE)`, is modelled by the `SerResult.died`
  outcome (process termination, observable as neither a value nor a
  `Status`);
* the backend transfer primitives additionally record each requested
  transfer size in per-primitive logs (`rlog`, `plog`, `wlog`), so that
  "performs exactly one transfer of n bytes" is a provable statement.
-/

/-- Model of `std::endian` (platform.cxx / <bit>). -/
inductive Endian where
  | little
  | big
deriving DecidableEq, Repr

/-- `std::endian::native` on the targets of platform_configuration.hxx
(x64/x86/ARM in their default little-endian mode). -/
def nativeEndian : Endian := Endian.little

/-- `StatusCode` from diagnostics (status partition), 17 variants. -/
inductive StatusCode where
  | success
  | cancelled
  | unknown
  | invalid_argument
  | deadline_exceeded
  | not_found
  | already_exists
  | permission_denied
  | resource_exhausted
  | failed_precondition
  | aborted
  | out_of_range
  | unimplemented
  | internal
  | unavailable
  | data_loss
  | unauthenticated
deriving DecidableEq, Repr

/-- `Status` from diagnostics: a code plus a human-readable message. -/
structure Status where
  code : StatusCode
  message : String
deriving DecidableEq, Repr

/-- `Status::Success()`. -/
def Status.Success : Status := ⟨StatusCode.success, ""⟩

/-- `Status::success()` member: only the `success` code answers true. -/
def Status.ok (s : Status) : Bool := s.code = StatusCode.success

/-- Model of the `std::fstream` owned by `FileStreamImplementation`,
opened with `in|out|binary`: file contents, the joint get/put file
position of the underlying `filebuf`, and the stream state flags
(`fail()` is modelled by `failbit`; `badbit` is folded into it).
`rlog`/`plog`/`wlog` record the byte count of every `on_read`/`on_peek`/
`on_write` invocation, instrumenting "number of backend transfers". -/
structure FStream where
  data : List Nat
  pos : Nat
  eofbit : Bool
  failbit : Bool
  rlog : List Nat
  plog : List Nat
  wlog : List Nat
deriving DecidableEq, Repr

/-- `m_file.fail()`. -/
def FStream.fail (s : FStream) : Bool := s.failbit

/-- `FileStreamImplementation::on_validate`: `!m_file.fail()`. -/
def FStream.on_validate (s : FStream) : Bool := !s.failbit

/-- `m_file.clear()`: resets the stream state flags. -/
def FStream.clear (s : FStream) : FStream := { s with eofbit := false, failbit := false }

/-- `m_file.tellp()`: the put position, or `-1` when `fail()`. -/
def FStream.tellp (s : FStream) : Int := if s.failbit then -1 else (s.pos : Int)

/-- `m_file.seekp(p)`: a no-op when `fail()`; an out-of-range target
(such as the `-1` a failed `tellp` produced) sets `failbit`. -/
def FStream.seekp (s : FStream) (p : Int) : FStream :=
  if s.failbit then s
  else if p < 0 then { s with failbit := true }
  else { s with pos := p.toNat }

/-- `m_file.read(buffer, count)`: returns the bytes stored into the
buffer together with the new stream state.  A stream that is not
`good()` fails its sentry and sets `failbit` without transferring.
Otherwise, if `count` bytes are available they are transferred and the
position advances; reaching end-of-file first transfers what is
available and sets `eofbit` and `failbit`. -/
def FStream.readBytes (s : FStream) (count : Nat) : List Nat × FStream :=
  if s.failbit || s.eofbit then ([], { s with failbit := true })
  else if s.pos + count ≤ s.data.length then
    ((s.data.drop s.pos).take count, { s with pos := s.pos + count })
  else
    ((s.data.drop s.pos).take count,
      { s with pos := s.data.length, eofbit := true, failbit := true })

/-- `m_file.write(buffer, count)`: a stream that is not `good()` fails
its sentry and sets `failbit`; otherwise the bytes overwrite the file
contents at the current position (extending the file as needed) and the
position advances. -/
def FStream.writeBytes (s : FStream) (bytes : List Nat) : FStream :=
  if s.failbit || s.eofbit then { s with failbit := true }
  else
    { s with
      data := s.data.take s.pos ++ bytes ++ s.data.drop (s.pos + bytes.length),
      pos := s.pos + bytes.length }

/-- The caller's buffer after a transfer: the serializer always passes a
zero-initialised object of `count` bytes (`T{}` / `char_type{}`), so the
bytes beyond what was transferred stay zero. -/
def padBuffer (count : Nat) (bytes : List Nat) : List Nat :=
  bytes ++ List.replicate (count - bytes.length) 0

/-- `FileStreamImplementation::on_read(buffer, count)`: fails with
`failed_precondition` when `count == 0`, then reads; `eofbit` maps to
`out_of_range`, any other failure to `aborted`.  Returns the status, the
caller's buffer contents, and the new stream. -/
def FStream.on_read (s : FStream) (count : Nat) : Status × List Nat × FStream :=
  let s := { s with rlog := s.rlog ++ [count] }
  if count = 0 then
    (⟨StatusCode.failed_precondition, "Cannot read less than 1 byte."⟩, [], s)
  else
    let r := s.readBytes count
    if r.2.eofbit then (⟨StatusCode.out_of_range, "EOF reached."⟩, padBuffer count r.1, r.2)
    else if r.2.failbit then (⟨StatusCode.aborted, "Unknow error, safe abort."⟩, padBuffer count r.1, r.2)
    else (Status.Success, padBuffer count r.1, r.2)

/-- `FileStreamImplementation::on_peek(buffer, count)`: like `on_read`,
but the prior position is restored through `clear()` + `seekp(old)` —
and, crucially, the `eofbit`/`failbit` checks run only after `clear()`
has wiped those flags. -/
def FStream.on_peek (s : FStream) (count : Nat) : Status × List Nat × FStream :=
  let s := { s with plog := s.plog ++ [count] }
  if count = 0 then
    (⟨StatusCode.failed_precondition, "Cannot peek less than 1 byte."⟩, [], s)
  else
    let old := s.tellp
    let r := s.readBytes count
    let s2 := (r.2.clear).seekp old
    if s2.eofbit then (⟨StatusCode.out_of_range, "EOF reached."⟩, padBuffer count r.1, s2)
    else if s2.failbit then (⟨StatusCode.aborted, "Unknow error, safe abort."⟩, padBuffer count r.1, s2)
    else (Status.Success, padBuffer count r.1, s2)

/-- `FileStreamImplementation::on_write(buffer, count)`: fails with
`failed_precondition` when `count == 0`; `eofbit` maps to
`out_of_range`, any other failure to `aborted`. -/
def FStream.on_write (s : FStream) (bytes : List Nat) : Status × FStream :=
  let s := { s with wlog := s.wlog ++ [bytes.length] }
  if bytes.length = 0 then
    (⟨StatusCode.failed_precondition, "Cannot write less than 1 byte."⟩, s)
  else
    let s2 := s.writeBytes bytes
    if s2.eofbit then (⟨StatusCode.out_of_range, "EOF reached."⟩, s2)
    else if s2.failbit then (⟨StatusCode.aborted, "Unknow error, safe abort."⟩, s2)
    else (Status.Success, s2)

/-- `FileStreamImplementation::on_seek(position)`: `seekp` then `true`. -/
def FStream.on_seek (s : FStream) (position : Nat) : Bool × FStream :=
  (true, s.seekp (position : Int))

/-- Outcome of a `Serializer` member function: a value with the new
backend state, a non-success `Status` with the new backend state, or
process termination through the diagnostics `expect` assertion
(`internal::on_assert` is `[[noreturn]]`: it prints and calls
`std::exit(EXIT_FAILURE)`). -/
inductive SerResult (α : Type) where
  | ok : α → FStream → SerResult α
  | err : Status → FStream → SerResult α
  | died : String → SerResult α
deriving DecidableEq, Repr

/-- The message `expect` is given in every serializer operation. -/
def kStreamStateInvalid : String := "Stream is not in a valid state."

/-- `endian_swap(data_endian, &data)` from platform.cxx on an object of
`w` bytes: compiled out for single-byte types, a no-op when the
requested order is native, otherwise `memory::reverse` of the object
representation. -/
def endian_swap (e : Endian) (w : Nat) (bytes : List Nat) : List Nat :=
  if w ≤ 1 then bytes
  else if nativeEndian = e then bytes
  else bytes.reverse

/-- `Serializer::read<T>` for trivial non-class `T` of `w` bytes
(serializer_abstracts.cxx): `expect(validate())` - so an invalid stream
kills the process - then one `on_read` of `sizeof(T)` bytes, then
`endian_swap`. -/
def Serializer.read_typed (w : Nat) (e : Endian) (s : FStream) : SerResult (List Nat) :=
  if !s.on_validate then SerResult.died kStreamStateInvalid
  else
    let r := s.on_read w
    if r.1.ok then SerResult.ok (endian_swap e w r.2.1) r.2.2
    else SerResult.err r.1 r.2.2

/-- `Serializer::peek<T>` for trivial `T` of `w` bytes: like `read<T>`
but through `on_peek`. -/
def Serializer.peek_typed (w : Nat) (e : Endian) (s : FStream) : SerResult (List Nat) :=
  if !s.on_validate then SerResult.died kStreamStateInvalid
  else
    let r := s.on_peek w
    if r.1.ok then SerResult.ok (endian_swap e w r.2.1) r.2.2
    else SerResult.err r.1 r.2.2

/-- `Serializer::write<T>(data, data_endian)` for trivial `T`:
`expect(validate())`, `endian_swap` on a copy, then one `on_write` of
`sizeof(T)` bytes; returns the failing status or `Status::Success()`. -/
def Serializer.write_typed (v : List Nat) (e : Endian) (s : FStream) : SerResult Unit :=
  if !s.on_validate then SerResult.died kStreamStateInvalid
  else
    let r := s.on_write (endian_swap e v.length v)
    if r.1.ok then SerResult.ok () r.2
    else SerResult.err r.1 r.2

/-- `Serializer::write(std::string text)` (serializer_abstracts.cxx,
lines 219-222): calls `on_write(text.data(), text.size())` and returns
nothing - the backend `Status` is discarded.  There is no
`expect(validate())` in this overload either. -/
def Serializer.write_str (text : List Nat) (s : FStream) : FStream :=
  (s.on_write text).2

/-- `Serializer::read<StringType>(lenght, data_endian)`
(serializer_abstracts.cxx, lines 136-155): `expect(validate())`,
`result.resize(lenght)`, then one `on_read` of
`sizeof(char_type) * lenght` bytes into the string's storage; no endian
conversion is applied.  `charW` is `sizeof(char_type)`, `n` the
requested length in code units. -/
def Serializer.read_str_len (charW n : Nat) (s : FStream) : SerResult (List Nat) :=
  if !s.on_validate then SerResult.died kStreamStateInvalid
  else
    let r := s.on_read (charW * n)
    if r.1.ok then SerResult.ok r.2.1 r.2.2
    else SerResult.err r.1 r.2.2

/-- Loop body of `Serializer::read<StringType>(data_endian)`
(null-terminated overload, serializer_abstracts.cxx lines 102-134): one
code unit (`charW` bytes) per `on_read`; on failure the status is
returned at once; a multi-byte unit is endian-converted before the
terminator test and before being appended; the do-while keeps going
while the (converted) unit is non-zero.  Note the unit is appended
before the terminator test, so the accumulated text keeps the
terminator. -/
def Serializer.read_str_null_aux (charW : Nat) (e : Endian) (s : FStream)
    (acc : List (List Nat)) : SerResult (List (List Nat)) :=
  if h : ((s.on_read charW).1).ok then
    let c := endian_swap e charW (s.on_read charW).2.1
    if c.all (· = 0) then SerResult.ok (acc ++ [c]) (s.on_read charW).2.2
    else Serializer.read_str_null_aux charW e (s.on_read charW).2.2 (acc ++ [c])
  else SerResult.err (s.on_read charW).1 (s.on_read charW).2.2
termination_by s.data.length + 1 - s.pos
decreasing_by
  have hfacts : 0 < charW ∧ s.pos + charW ≤ s.data.length ∧
      (s.on_read charW).2.2.data = s.data ∧ (s.on_read charW).2.2.pos = s.pos + charW := by
    cases hf : s.failbit <;> cases he : s.eofbit <;> by_cases hw : charW = 0 <;>
      by_cases hle : s.pos + charW ≤ s.data.length <;>
      simp [FStream.on_read, FStream.readBytes, padBuffer, hf, he, hw, hle,
        Status.ok, Status.Success] at h ⊢ <;>
      omega
  obtain ⟨hw, hle, hdata, hpos⟩ := hfacts
  rw [hdata, hpos]
  omega

/-- `Serializer::read<StringType>(data_endian)` (null-terminated
overload): `expect(validate())` then the unit-by-unit loop, starting
from the empty accumulator. -/
def Serializer.read_str_null (charW : Nat) (e : Endian) (s : FStream) :
    SerResult (List (List Nat)) :=
  if !s.on_validate then SerResult.died kStreamStateInvalid
  else Serializer.read_str_null_aux charW e s []

/-- `Serializer::read<T>` for plain-old-data class `T` of `n` bytes
(serializer_abstracts.cxx, lines 157-174): `expect(validate())`, one
`on_read` of `sizeof(T)` bytes, and the raw object representation is
returned - this overload applies no endian conversion at all (the
`data_endian` argument is unused). -/
def Serializer.read_pod (n : Nat) (e : Endian) (s : FStream) : SerResult (List Nat) :=
  if !s.on_validate then SerResult.died kStreamStateInvalid
  else
    let r := s.on_read n
    if r.1.ok then SerResult.ok r.2.1 r.2.2
    else SerResult.err r.1 r.2.2

/-- Shape of a fixed-layout aggregate field as `endian_swap_visitor`
(memory.cxx, lines 654-701) classifies it through type traits:
an arithmetic field of `w` bytes, an enum field of `w` bytes (the width
of its underlying integer), a bounded array of `count` elements of
`elemW` bytes each, or a nested aggregate. -/
inductive FieldTy where
  | arith (w : Nat)
  | enumF (w : Nat)
  | arrF (elemW count : Nat)
  | agg (fields : List FieldTy)

mutual

/-- `sizeof` of one field. -/
def sizeF : FieldTy → Nat
  | FieldTy.arith w => w
  | FieldTy.enumF w => w
  | FieldTy.arrF w n => w * n
  | FieldTy.agg fs => sizeA fs

/-- `sizeof` of a packed aggregate: the sum of its field sizes (the
repository insists on packed, padding-free aggregates). -/
def sizeA : List FieldTy → Nat
  | [] => 0
  | f :: fs => sizeF f + sizeA fs

end

/-- Reversal of each consecutive `w`-byte chunk: the effect of the
element loop in `endian_swap(e, pointer, count)` on a bounded array's
object representation. -/
def revChunks : Nat → List Nat → List Nat
  | _, [] => []
  | 0, bs => bs
  | w + 1, b :: bs =>
    ((b :: bs).take (w + 1)).reverse ++ revChunks (w + 1) ((b :: bs).drop (w + 1))
termination_by w bs => bs.length
decreasing_by simp; omega

/-- `endian_swap(data_endian, array_pointer, count)` on an array chunk:
compiled out for one-byte elements, a no-op for the native order,
otherwise each element's bytes are reversed in place. -/
def endian_swap_array (e : Endian) (w count : Nat) (bytes : List Nat) : List Nat :=
  if w ≤ 1 then bytes
  else if nativeEndian = e then bytes
  else revChunks w bytes

mutual

/-- Action of the `field_visitor_lambda` in `endian_swap_visitor` on one
field's bytes: a nested aggregate is visited recursively (and then falls
through to the diagnostic-print branch, which does not touch the data);
a bounded array is swapped element-wise only when the element width
exceeds one byte; arithmetic fields are swapped; enum fields are swapped
at the width of the enum type. -/
def visitField (e : Endian) : FieldTy → List Nat → List Nat
  | FieldTy.arith w, c => endian_swap e w c
  | FieldTy.enumF w, c => endian_swap e w c
  | FieldTy.arrF w n, c => endian_swap_array e w n c
  | FieldTy.agg fs, c => visitFields e fs c

/-- `pfr::for_each_field`: the fields are visited in declaration order,
each acting on its own slice of the packed object representation. -/
def visitFields (e : Endian) : List FieldTy → List Nat → List Nat
  | [], c => c
  | f :: fs, c => visitField e f (c.take (sizeF f)) ++ visitFields e fs (c.drop (sizeF f))

end

/-- `Serializer::read<T>` for plain-old-data `T` in the copy of the
serializer embedded in memory.cxx (lines 830-850): `expect(validate())`,
one `on_read` of `sizeof(T)` bytes, then `endian_swap_visitor` over
every field.  This is the variant the spec describes; the copy in
serializer_abstracts.cxx (`Serializer.read_pod` above) omits the
visitor. -/
def Serializer.read_pod_visit (agg : List FieldTy) (e : Endian) (s : FStream) :
    SerResult (List Nat) :=
  if !s.on_validate then SerResult.died kStreamStateInvalid
  else
    let r := s.on_read (sizeA agg)
    if r.1.ok then SerResult.ok (visitFields e agg r.2.1) r.2.2
    else SerResult.err r.1 r.2.2

/-- `LocalFileHeader` (part_002, lines 29-43): a packed struct of eleven
unsigned fields; `static_assert(sizeof(LocalFileHeader) == 30)`. -/
structure LocalFileHeader where
  signature : Nat
  version_needed : Nat
  flags : Nat
  compression_method : Nat
  last_mod_time : Nat
  last_mod_date : Nat
  crc32 : Nat
  compressed_size : Nat
  uncompressed_size : Nat
  file_name_length : Nat
  extra_field_length : Nat
deriving DecidableEq, Repr

/-- Byte `i` of a buffer (a transferred buffer always has the full
requested length, so the default is never reached in the proofs). -/
def byteAt (bs : List Nat) (i : Nat) : Nat := bs.getD i 0

/-- A `std::uint16_t` read from two bytes at offset `i` of a packed
object representation on the little-endian targets. -/
def le16 (bs : List Nat) (i : Nat) : Nat := byteAt bs i + 2 ^ 8 * byteAt bs (i + 1)

/-- A `std::uint32_t` read from four bytes at offset `i` of a packed
object representation on the little-endian targets. -/
def le32 (bs : List Nat) (i : Nat) : Nat :=
  byteAt bs i + 2 ^ 8 * (byteAt bs (i + 1) + 2 ^ 8 * (byteAt bs (i + 2) + 2 ^ 8 * byteAt bs (i + 3)))

/-- Reinterpretation of 30 transferred bytes as a `LocalFileHeader`: the
packed struct layout is the wire layout, fields in declaration order at
offsets 0,4,6,8,10,12,14,18,22,26,28. -/
def parseHeader (bs : List Nat) : LocalFileHeader :=
  { signature := le32 bs 0
    version_needed := le16 bs 4
    flags := le16 bs 6
    compression_method := le16 bs 8
    last_mod_time := le16 bs 10
    last_mod_date := le16 bs 12
    crc32 := le32 bs 14
    compressed_size := le32 bs 18
    uncompressed_size := le32 bs 22
    file_name_length := le16 bs 26
    extra_field_length := le16 bs 28 }

/-- Two-byte little-endian object representation of a `std::uint16_t`. -/
def enc16 (v : Nat) : List Nat := [v % 2 ^ 8, v / 2 ^ 8 % 2 ^ 8]

/-- Four-byte little-endian object representation of a `std::uint32_t`. -/
def enc32 (v : Nat) : List Nat :=
  [v % 2 ^ 8, v / 2 ^ 8 % 2 ^ 8, v / 2 ^ 16 % 2 ^ 8, v / 2 ^ 24 % 2 ^ 8]

/-- Object representation of a packed `LocalFileHeader` on the
little-endian targets: the fields' bytes in declaration order with no
padding - exactly what a `write` of the struct would transfer. -/
def encodeHeader (h : LocalFileHeader) : List Nat :=
  enc32 h.signature ++ enc16 h.version_needed ++ enc16 h.flags ++
    enc16 h.compression_method ++ enc16 h.last_mod_time ++ enc16 h.last_mod_date ++
    enc32 h.crc32 ++ enc32 h.compressed_size ++ enc32 h.uncompressed_size ++
    enc16 h.file_name_length ++ enc16 h.extra_field_length

/-- `LocalFile` (part_002, lines 62-68). -/
structure LocalFile where
  header : LocalFileHeader
  file_name : List Nat
  extra_field : List Nat
  data : List Nat
deriving DecidableEq, Repr

/-- The per-field pattern of `ZipArchiveImplementation::filelist`: an
`if (auto field = m_serializer.read<std::string>(n); field.has_value())`
assignment - a failing read leaves the default (empty) string, while a
read that trips the `expect(validate())` assertion kills the process. -/
def fieldStep (r : SerResult (List Nat)) : SerResult (List Nat) :=
  match r with
  | SerResult.ok v s => SerResult.ok v s
  | SerResult.err _ s => SerResult.ok [] s
  | SerResult.died m => SerResult.died m

/-- `ZipArchiveImplementation::filelist` (part_002, lines 115-147):
seek to 0; `read<LocalFileHeader>(std::endian::native)`; on failure
return the empty vector; otherwise sequentially read `file_name_length`,
`extra_field_length` and `compressed_size` bytes as strings, failing
field reads degrading to the empty string, and return the one record. -/
def filelist (s0 : FStream) : SerResult (List LocalFile) :=
  let s := (s0.on_seek 0).2
  match Serializer.read_pod 30 nativeEndian s with
  | SerResult.died m => SerResult.died m
  | SerResult.err _ s1 => SerResult.ok [] s1
  | SerResult.ok buf s1 =>
    let hdr := parseHeader buf
    match fieldStep (Serializer.read_str_len 1 hdr.file_name_length s1) with
    | SerResult.died m => SerResult.died m
    | SerResult.err st s2 => SerResult.err st s2
    | SerResult.ok name s2 =>
      match fieldStep (Serializer.read_str_len 1 hdr.extra_field_length s2) with
      | SerResult.died m => SerResult.died m
      | SerResult.err st s3 => SerResult.err st s3
      | SerResult.ok extra s3 =>
        match fieldStep (Serializer.read_str_len 1 hdr.compressed_size s3) with
        | SerResult.died m => SerResult.died m
        | SerResult.err st s4 => SerResult.err st s4
        | SerResult.ok dat s4 =>
          SerResult.ok [{ header := hdr, file_name := name, extra_field := extra, data := dat }] s4

/-- The byte stream of the end-to-end example in the specification:
a 30-byte header (`ver=20`, `crc=0xDEADBEEF`, `csize=5`, `usize=5`,
`fnlen=4`, `exlen=0`) followed by `"test"` and `"hello"`. -/
def exampleBytes : List Nat :=
  [0x50, 0x4B, 0x03, 0x04] ++ [20, 0] ++ [0, 0] ++ [0, 0] ++ [0, 0] ++ [0, 0] ++
    [0xEF, 0xBE, 0xAD, 0xDE] ++ [5, 0, 0, 0] ++ [5, 0, 0, 0] ++ [4, 0] ++ [0, 0] ++
    [116, 101, 115, 116] ++ [104, 101, 108, 108, 111]

/-- A freshly opened stream over the example bytes. -/
def exampleStream : FStream := ⟨exampleBytes, 0, false, false, [], [], []⟩

/-- `Serializer::seek(position)`: forwards to `on_seek`. -/
def Serializer.seek (p : Nat) (s : FStream) : Bool × FStream := s.on_seek p

/-- Holds when an operation handed a result (value or `Status`) back to
its caller instead of terminating the process. -/
def SerResult.notDied {α : Type} : SerResult α → Prop
  | SerResult.died _ => False
  | _ => True

/-- A file stream whose `fail()` flag is set: `validate()` is false. -/
def invalidStream : FStream := ⟨[1, 2, 3, 4], 0, false, true, [], [], []⟩

/-- A healthy two-byte stream (one two-byte arithmetic field). -/
def twoByteStream : FStream := ⟨[1, 2], 0, false, false, [], [], []⟩

/-- A stream holding a 30-byte header announcing `file_name_length = 2`,
`extra_field_length = 1`, `compressed_size = 1`, but truncated to a
single trailing byte. -/
def truncStream : FStream :=
  ⟨[0x50, 0x4B, 0x03, 0x04] ++ [20, 0] ++ [0, 0] ++ [0, 0] ++ [0, 0] ++ [0, 0] ++
    [0, 0, 0, 0] ++ [1, 0, 0, 0] ++ [1, 0, 0, 0] ++ [2, 0] ++ [1, 0] ++ [65],
    0, false, false, [], [], []⟩

/-- Fact extraction for a successful `on_read`: success forces a
non-zero count, clean flags, full availability, and the advanced state. -/
theorem on_read_ok_facts (s : FStream) (w : Nat) (h : ((s.on_read w).1).ok = true) :
    0 < w ∧ s.failbit = false ∧ s.eofbit = false ∧ s.pos + w ≤ s.data.length ∧
      (s.on_read w).2.2 = { s with rlog := s.rlog ++ [w], pos := s.pos + w } ∧
      (s.on_read w).2.1 = (s.data.drop s.pos).take w := by
  have hlen : ((s.data.drop s.pos).take w).length = min w (s.data.length - s.pos) := by
    simp [List.length_take, List.length_drop]
  cases hf : s.failbit <;> cases he : s.eofbit <;> by_cases hw : w = 0 <;>
    by_cases hle : s.pos + w ≤ s.data.length <;>
    simp [FStream.on_read, FStream.readBytes, padBuffer, hf, he, hw, hle,
      Status.ok, Status.Success, hlen] at h ⊢ <;>
    omega

/-- Success case of `on_read` as a rewriting equation. -/
theorem on_read_eq_ok (s : FStream) (w : Nat) (hw : 0 < w) (hf : s.failbit = false)
    (he : s.eofbit = false) (hle : s.pos + w ≤ s.data.length) :
    s.on_read w =
      (Status.Success, (s.data.drop s.pos).take w,
        { s with rlog := s.rlog ++ [w], pos := s.pos + w }) := by
  have hw2 : ¬ w = 0 := by omega
  have hlen : ((s.data.drop s.pos).take w).length = w := by
    simp [List.length_take, List.length_drop]; omega
  simp [FStream.on_read, FStream.readBytes, padBuffer, hf, he, hle, hlen, hw2]

/-- `endian_swap` preserves the object size. -/
theorem endian_swap_length (e : Endian) (w : Nat) (v : List Nat) :
    (endian_swap e w v).length = v.length := by
  unfold endian_swap
  split
  · rfl
  split <;> simp

/-- `endian_swap` is an involution: swapping a copy into the requested
order and then swapping the read-back bytes restores the value. -/
theorem endian_swap_invol (e : Endian) (w : Nat) (v : List Nat) :
    endian_swap e w (endian_swap e w v) = v := by
  unfold endian_swap
  split
  · rfl
  split <;> simp

/-- Success case of `on_peek` as a rewriting equation: the cursor and
the flags come back untouched, only the peek log grows. -/
theorem on_peek_eq_ok (s : FStream) (w : Nat) (hw : 0 < w) (hf : s.failbit = false)
    (he : s.eofbit = false) (hle : s.pos + w ≤ s.data.length) :
    s.on_peek w =
      (Status.Success, (s.data.drop s.pos).take w, { s with plog := s.plog ++ [w] }) := by
  have hw2 : ¬ w = 0 := by omega
  have hpos : ¬ ((s.pos : Int) < 0) := by omega
  have hlen : ((s.data.drop s.pos).take w).length = w := by
    simp [List.length_take, List.length_drop]; omega
  simp [FStream.on_peek, FStream.readBytes, FStream.tellp, FStream.clear, FStream.seekp,
    padBuffer, hf, he, hle, hlen, hw2, hpos]

/-- Success case of `on_write` for a healthy stream: the bytes land at
the cursor and the cursor advances past them. -/
theorem on_write_eq_ok (s : FStream) (bytes : List Nat) (hb : 0 < bytes.length)
    (hf : s.failbit = false) (he : s.eofbit = false) :
    s.on_write bytes =
      (Status.Success,
        { s with wlog := s.wlog ++ [bytes.length],
                 data := s.data.take s.pos ++ bytes ++ s.data.drop (s.pos + bytes.length),
                 pos := s.pos + bytes.length }) := by
  have hb2 : ¬ bytes.length = 0 := by omega
  simp [FStream.on_write, FStream.writeBytes, hf, he, hb2]

/-- Claim C1 counterexample: a typed read on a backend whose
`validate()` is false does not return a `FailedPrecondition` status -
it terminates the process through the diagnostics assertion
(`expect` / `internal::on_assert` / `std::exit`). -/
theorem read_on_invalid_stream_terminates :
    (match Serializer.read_typed 4 Endian.big invalidStream with
      | SerResult.ok _ _ => False
      | SerResult.err _ _ => False
      | SerResult.died m => m = kStreamStateInvalid) := by
  rfl

/-- The null-terminated read loop never trips an assertion: its only
exits hand back a value or the failing unit's status. -/
theorem read_str_null_aux_notDied (charW : Nat) (e : Endian) :
    ∀ (n : Nat) (s : FStream) (acc : List (List Nat)), s.data.length + 1 - s.pos ≤ n →
      (Serializer.read_str_null_aux charW e s acc).notDied := by
  intro n
  induction n with
  | zero =>
    intro s acc hn
    rw [Serializer.read_str_null_aux]
    by_cases hok : ((s.on_read charW).1).ok = true
    · obtain ⟨_, _, _, hle, _, _⟩ := on_read_ok_facts s charW hok
      omega
    · simp [hok, SerResult.notDied]
  | succ n ih =>
    intro s acc hn
    rw [Serializer.read_str_null_aux]
    by_cases hok : ((s.on_read charW).1).ok = true
    · obtain ⟨hw, _, _, hle, hst, _⟩ := on_read_ok_facts s charW hok
      simp only [hok, dite_true]
      split
      · simp [SerResult.notDied]
      · apply ih
        rw [hst]
        simp
        omega
    · simp [hok, SerResult.notDied]

/-- Claim C1 (amended): a typed serializer operation invoked while the
backend's `validate()` is false does not return a `FailedPrecondition`
status - the `expect` precondition check terminates the process; when
`validate()` is true, every operation hands a value or a `Status` back
to its caller and never terminates the process. -/
theorem serializer_ops_assert_or_return (s : FStream) (w n : Nat) (e : Endian) (v : List Nat) :
    (s.on_validate = false →
      Serializer.read_typed w e s = SerResult.died kStreamStateInvalid ∧
      Serializer.peek_typed w e s = SerResult.died kStreamStateInvalid ∧
      Serializer.write_typed v e s = SerResult.died kStreamStateInvalid ∧
      Serializer.read_str_len 1 n s = SerResult.died kStreamStateInvalid ∧
      Serializer.read_str_null w e s = SerResult.died kStreamStateInvalid ∧
      Serializer.read_pod n e s = SerResult.died kStreamStateInvalid) ∧
    (s.on_validate = true →
      (Serializer.read_typed w e s).notDied ∧
      (Serializer.peek_typed w e s).notDied ∧
      (Serializer.write_typed v e s).notDied ∧
      (Serializer.read_str_len 1 n s).notDied ∧
      (Serializer.read_str_null w e s).notDied ∧
      (Serializer.read_pod n e s).notDied) := by
  constructor
  · intro h
    refine ⟨?_, ?_, ?_, ?_, ?_, ?_⟩ <;>
      simp [Serializer.read_typed, Serializer.peek_typed, Serializer.write_typed,
        Serializer.read_str_len, Serializer.read_str_null, Serializer.read_pod, h]
  · intro h
    refine ⟨?_, ?_, ?_, ?_, ?_, ?_⟩ <;>
      simp only [Serializer.read_typed, Serializer.peek_typed, Serializer.write_typed,
        Serializer.read_str_len, Serializer.read_str_null, Serializer.read_pod, h,
        Bool.not_true, Bool.false_eq_true, if_false]
    · split <;> simp [SerResult.notDied]
    · split <;> simp [SerResult.notDied]
    · split <;> simp [SerResult.notDied]
    · split <;> simp [SerResult.notDied]
    · exact read_str_null_aux_notDied w e (s.data.length + 1) s [] (by omega)
    · split <;> simp [SerResult.notDied]

/-- Witness for the amended claim C1 at concrete streams: the invalid
stream's read terminates the process, the healthy stream's read hands a
result back. -/
theorem serializer_ops_assert_or_return_witness :
    Serializer.read_typed 2 Endian.big invalidStream = SerResult.died kStreamStateInvalid ∧
      (Serializer.read_typed 2 Endian.big twoByteStream).notDied :=
  ⟨((serializer_ops_assert_or_return invalidStream 2 0 Endian.big []).1 (by decide)).1,
   ((serializer_ops_assert_or_return twoByteStream 2 0 Endian.big []).2 (by decide)).1⟩

/-- Claim C4 counterexample: a peek that reaches end-of-resource before
`count` bytes are available returns `Success`, not `OutOfRange` - the
`clear()` that precedes the cursor restore also wipes the `eofbit`/
`failbit` the checks would have seen. -/
theorem on_peek_eof_returns_success :
    (FStream.on_peek ⟨[5], 0, false, false, [], [], []⟩ 2).1 = Status.Success ∧
      Status.Success.code ≠ StatusCode.out_of_range := by
  decide

/-- Claim C4 (amended): `on_read` and `on_write` behave as claimed -
`FailedPrecondition` on `count == 0`, `OutOfRange` when end-of-resource
hits first, `Aborted` on a pre-existing stream fault, `Success`
otherwise.  `on_peek` shares the `count == 0` and fault cases and
restores the cursor, but an end-of-resource shortfall yields `Success`
rather than `OutOfRange`, because `clear()` runs before the checks. -/
theorem backend_primitive_status (s : FStream) (count : Nat) (bytes : List Nat) :
    ((s.on_read 0).1.code = StatusCode.failed_precondition ∧
      (s.on_peek 0).1.code = StatusCode.failed_precondition ∧
      (s.on_write []).1.code = StatusCode.failed_precondition) ∧
    (0 < count → s.failbit = false → s.eofbit = false →
      (s.pos + count ≤ s.data.length → (s.on_read count).1 = Status.Success) ∧
      (s.data.length < s.pos + count →
        (s.on_read count).1.code = StatusCode.out_of_range)) ∧
    (0 < count → s.failbit = true → s.eofbit = false →
      (s.on_read count).1.code = StatusCode.aborted) ∧
    (0 < bytes.length → s.failbit = false → s.eofbit = false →
      (s.on_write bytes).1 = Status.Success) ∧
    (0 < bytes.length → s.failbit = true → s.eofbit = false →
      (s.on_write bytes).1.code = StatusCode.aborted) ∧
    (0 < count → s.failbit = false → s.eofbit = false →
      (s.on_peek count).1 = Status.Success ∧ (s.on_peek count).2.2.pos = s.pos) ∧
    (0 < count → s.failbit = true → (s.on_peek count).1.code = StatusCode.aborted) := by
  have hpos : ¬ ((s.pos : Int) < 0) := by omega
  refine ⟨⟨?_, ?_, ?_⟩, ?_, ?_, ?_, ?_, ?_, ?_⟩
  · simp [FStream.on_read]
  · simp [FStream.on_peek]
  · simp [FStream.on_write]
  · intro hc hf he
    constructor
    · intro hle
      exact congrArg Prod.fst (on_read_eq_ok s count hc hf he hle)
    · intro hgt
      have hc2 : ¬ count = 0 := by omega
      have hle2 : ¬ (s.pos + count ≤ s.data.length) := by omega
      simp [FStream.on_read, FStream.readBytes, hf, he, hc2, hle2]
  · intro hc hf he
    have hc2 : ¬ count = 0 := by omega
    simp [FStream.on_read, FStream.readBytes, hf, he, hc2]
  · intro hb hf he
    exact congrArg Prod.fst (on_write_eq_ok s bytes hb hf he)
  · intro hb hf he
    have hb2 : ¬ bytes.length = 0 := by omega
    simp [FStream.on_write, FStream.writeBytes, hf, he, hb2]
  · intro hc hf he
    have hc2 : ¬ count = 0 := by omega
    by_cases hle : s.pos + count ≤ s.data.length
    · simp [FStream.on_peek, FStream.readBytes, FStream.tellp, FStream.clear,
        FStream.seekp, hf, he, hc2, hle, hpos]
    · simp [FStream.on_peek, FStream.readBytes, FStream.tellp, FStream.clear,
        FStream.seekp, hf, he, hc2, hle, hpos]
  · intro hc hf
    have hc2 : ¬ count = 0 := by omega
    simp [FStream.on_peek, FStream.readBytes, FStream.tellp, FStream.clear,
      FStream.seekp, hf, hc2]

/-- Witness for the amended claim C4: the concrete two-byte stream
exercises the success, zero-count and fault branches. -/
theorem backend_primitive_status_witness :
    (twoByteStream.on_read 0).1.code = StatusCode.failed_precondition ∧
      (twoByteStream.on_read 2).1 = Status.Success ∧
      (invalidStream.on_read 2).1.code = StatusCode.aborted :=
  ⟨(backend_primitive_status twoByteStream 2 []).1.1,
   ((backend_primitive_status twoByteStream 2 []).2.1 (by decide) (by decide)
      (by decide)).1 (by decide),
   (backend_primitive_status invalidStream 2 []).2.2.1 (by decide) (by decide) (by decide)⟩

/-- Claim C8: on a healthy stream holding at least `w` readable bytes at
position `p`, `peek` returns a value and leaves the cursor at `p`, and
the following `read` returns the same value and leaves the cursor at
`p + w` - one `sizeof(T)` advance in total. -/
theorem peek_then_read (w : Nat) (e : Endian) (s : FStream) (hw : 0 < w)
    (hf : s.failbit = false) (he : s.eofbit = false) (hle : s.pos + w ≤ s.data.length) :
    ∃ v s1 s2,
      Serializer.peek_typed w e s = SerResult.ok v s1 ∧ s1.pos = s.pos ∧
        Serializer.read_typed w e s1 = SerResult.ok v s2 ∧ s2.pos = s.pos + w := by
  refine ⟨endian_swap e w ((s.data.drop s.pos).take w), { s with plog := s.plog ++ [w] },
    { s with plog := s.plog ++ [w], rlog := s.rlog ++ [w], pos := s.pos + w }, ?_, rfl, ?_, rfl⟩
  · simp [Serializer.peek_typed, FStream.on_validate, hf,
      on_peek_eq_ok s w hw hf he hle, Status.ok, Status.Success]
  · have h2 : FStream.on_read { s with plog := s.plog ++ [w] } w =
        (Status.Success, (s.data.drop s.pos).take w,
          { s with plog := s.plog ++ [w], rlog := s.rlog ++ [w], pos := s.pos + w }) :=
      on_read_eq_ok { s with plog := s.plog ++ [w] } w hw hf he hle
    rw [hf, he] at h2
    simp [Serializer.read_typed, FStream.on_validate, hf, he, h2, Status.ok, Status.Success]

/-- Witness for claim C8 on the concrete two-byte stream. -/
theorem peek_then_read_witness :
    0 < 2 ∧ (∃ v s1 s2,
      Serializer.peek_typed 2 Endian.big twoByteStream = SerResult.ok v s1 ∧
        s1.pos = twoByteStream.pos ∧
        Serializer.read_typed 2 Endian.big s1 = SerResult.ok v s2 ∧
        s2.pos = twoByteStream.pos + 2) :=
  ⟨by decide, peek_then_read 2 Endian.big twoByteStream (by decide) (by decide)
    (by decide) (by decide)⟩

/-- Claim C3: writing a fixed-size arithmetic value with an explicit
endianness and reading it back from the same stream position with the
same endianness restores the value (the swap applied by `write` is
undone by the swap applied by `read`). -/
theorem write_then_read_roundtrip (v : List Nat) (e : Endian) (s : FStream)
    (hv : 0 < v.length) (hf : s.failbit = false) (he : s.eofbit = false)
    (hp : s.pos ≤ s.data.length) :
    ∃ s1 s2, Serializer.write_typed v e s = SerResult.ok () s1 ∧
      Serializer.read_typed v.length e (Serializer.seek s.pos s1).2 =
        SerResult.ok v s2 := by
  have hsv := endian_swap_length e v.length v
  have hvne : 0 < (endian_swap e v.length v).length := by rw [hsv]; exact hv
  have hw := on_write_eq_ok s (endian_swap e v.length v) hvne hf he
  rw [hsv] at hw
  refine ⟨{ s with
              wlog := s.wlog ++ [v.length],
              data := s.data.take s.pos ++ endian_swap e v.length v ++
                s.data.drop (s.pos + v.length),
              pos := s.pos + v.length },
    { s with
        wlog := s.wlog ++ [v.length], rlog := s.rlog ++ [v.length],
        data := s.data.take s.pos ++ endian_swap e v.length v ++
          s.data.drop (s.pos + v.length),
        pos := s.pos + v.length }, ?_, ?_⟩
  · simp [Serializer.write_typed, FStream.on_validate, hf, hw, Status.ok, Status.Success]
  · have hpos : ¬ ((s.pos : Int) < 0) := by omega
    have htake : (s.data.take s.pos).length = s.pos := by
      simp [List.length_take]; omega
    have hseek : (Serializer.seek s.pos
        { s with
            wlog := s.wlog ++ [v.length],
            data := s.data.take s.pos ++ endian_swap e v.length v ++
              s.data.drop (s.pos + v.length),
            pos := s.pos + v.length }).2 =
        { s with
            wlog := s.wlog ++ [v.length],
            data := s.data.take s.pos ++ endian_swap e v.length v ++
              s.data.drop (s.pos + v.length),
            pos := s.pos } := by
      simp [Serializer.seek, FStream.on_seek, FStream.seekp, hf, hpos]
    rw [hseek]
    have hdlen : s.pos + v.length ≤
        (s.data.take s.pos ++ endian_swap e v.length v ++ s.data.drop (s.pos + v.length)).length := by
      simp [List.length_append, htake, hsv]
    have hslice :
        (((s.data.take s.pos ++ endian_swap e v.length v ++ s.data.drop (s.pos + v.length)).drop
          s.pos).take v.length) = endian_swap e v.length v := by
      rw [List.append_assoc, List.drop_left' htake, List.take_left' hsv]
    have hr := on_read_eq_ok
      { s with
          wlog := s.wlog ++ [v.length],
          data := s.data.take s.pos ++ endian_swap e v.length v ++
            s.data.drop (s.pos + v.length),
          pos := s.pos } v.length hv hf he (by simpa using hdlen)
    simp only [hslice] at hr
    rw [hf, he] at hr
    simp only [List.append_assoc] at hr
    simp [Serializer.read_typed, FStream.on_validate, hf, he, hr, Status.ok, Status.Success,
      endian_swap_invol]

/-- Witness for claim C3: the four-byte value `[1,2,3,4]` written
big-endian at position 0 of the healthy two-byte stream reads back
unchanged. -/
theorem write_then_read_roundtrip_witness :
    0 < ([1, 2, 3, 4] : List Nat).length ∧ (∃ s1 s2,
      Serializer.write_typed [1, 2, 3, 4] Endian.big twoByteStream = SerResult.ok () s1 ∧
        Serializer.read_typed ([1, 2, 3, 4] : List Nat).length Endian.big
          (Serializer.seek twoByteStream.pos s1).2 = SerResult.ok [1, 2, 3, 4] s2) :=
  ⟨by decide, write_then_read_roundtrip [1, 2, 3, 4] Endian.big twoByteStream
    (by decide) (by decide) (by decide) (by decide)⟩

/-- Claim C9 counterexample: the `std::string` write overload invokes
the backend `on_write`, which here produces an `Aborted` status, yet
hands back only the stream - its C++ return type is `void`, so the
non-success `Status` is silently discarded instead of surfaced. -/
theorem write_string_drops_status :
    (invalidStream.on_write [104, 105]).1.code = StatusCode.aborted ∧
      Serializer.write_str [104, 105] invalidStream = (invalidStream.on_write [104, 105]).2 := by
  decide

/-- Claim C9 (amended): on a validated stream the typed operations
surface exactly the backend's failing `Status` (or a success value),
while the `std::string` write overload returns only the stream state,
dropping the backend's `on_write` status. -/
theorem status_surfacing (s : FStream) (v text : List Nat) (e : Endian) (w : Nat)
    (h : s.on_validate = true) :
    (∀ st s2, Serializer.write_typed v e s = SerResult.err st s2 →
      st = (s.on_write (endian_swap e v.length v)).1) ∧
    (∀ st s2, Serializer.read_typed w e s = SerResult.err st s2 → st = (s.on_read w).1) ∧
    (∀ st s2, Serializer.peek_typed w e s = SerResult.err st s2 → st = (s.on_peek w).1) ∧
    Serializer.write_str text s = (s.on_write text).2 := by
  refine ⟨?_, ?_, ?_, rfl⟩ <;> intro st s2 hop <;>
    simp only [Serializer.write_typed, Serializer.read_typed, Serializer.peek_typed, h,
      Bool.not_true, Bool.false_eq_true, if_false] at hop <;>
    split at hop <;> simp_all

/-- Witness for the amended claim C9: a zero-byte typed write on a
healthy stream fails in the backend with `FailedPrecondition`, and that
very status is what the serializer returns. -/
theorem status_surfacing_witness :
    (Serializer.write_typed [] Endian.little twoByteStream =
        SerResult.err ⟨StatusCode.failed_precondition, "Cannot write less than 1 byte."⟩
          { twoByteStream with wlog := [0] }) ∧
      Serializer.write_str [9] twoByteStream = (twoByteStream.on_write [9]).2 := by
  constructor
  · have hs := (status_surfacing twoByteStream [] [9] Endian.little 1 (by decide)).1
    have hop : Serializer.write_typed [] Endian.little twoByteStream =
        SerResult.err ⟨StatusCode.failed_precondition, "Cannot write less than 1 byte."⟩
          { twoByteStream with wlog := [0] } := by decide
    exact hop
  · exact (status_surfacing twoByteStream [] [9] Endian.little 1 (by decide)).2.2.2

/-- Re-encoding a two-byte little-endian value recovers its bytes. -/
theorem enc16_pair (a b : Nat) (ha : a < 2 ^ 8) (hb : b < 2 ^ 8) :
    enc16 (a + 2 ^ 8 * b) = [a, b] := by
  simp [enc16, List.cons.injEq]
  omega

/-- Re-encoding a four-byte little-endian value recovers its bytes. -/
theorem enc32_quad (a b c d : Nat) (ha : a < 2 ^ 8) (hb : b < 2 ^ 8) (hc : c < 2 ^ 8)
    (hd : d < 2 ^ 8) :
    enc32 (a + 2 ^ 8 * (b + 2 ^ 8 * (c + 2 ^ 8 * d))) = [a, b, c, d] := by
  simp [enc32, List.cons.injEq]
  omega

/-- Claim C10: the encoded `LocalFileHeader` is exactly 30 bytes, its
fields sit at offsets 0,4,6,8,10,12,14,18,22,26,28 in declaration
order with no padding, and decoding 30 bytes and re-encoding reproduces
them byte-for-byte. -/
theorem localfileheader_layout (h : LocalFileHeader) (bs : List Nat) :
    (encodeHeader h).length = 30 ∧
    ((encodeHeader h).take 4 = enc32 h.signature ∧
      ((encodeHeader h).drop 4).take 2 = enc16 h.version_needed ∧
      ((encodeHeader h).drop 6).take 2 = enc16 h.flags ∧
      ((encodeHeader h).drop 8).take 2 = enc16 h.compression_method ∧
      ((encodeHeader h).drop 10).take 2 = enc16 h.last_mod_time ∧
      ((encodeHeader h).drop 12).take 2 = enc16 h.last_mod_date ∧
      ((encodeHeader h).drop 14).take 4 = enc32 h.crc32 ∧
      ((encodeHeader h).drop 18).take 4 = enc32 h.compressed_size ∧
      ((encodeHeader h).drop 22).take 4 = enc32 h.uncompressed_size ∧
      ((encodeHeader h).drop 26).take 2 = enc16 h.file_name_length ∧
      ((encodeHeader h).drop 28).take 2 = enc16 h.extra_field_length) ∧
    (bs.length = 30 → (∀ b ∈ bs, b < 256) → encodeHeader (parseHeader bs) = bs) := by
  refine ⟨by simp [encodeHeader, enc16, enc32], ?_, ?_⟩
  · refine ⟨?_, ?_, ?_, ?_, ?_, ?_, ?_, ?_, ?_, ?_, ?_⟩ <;>
      simp [encodeHeader, enc16, enc32]
  intro hlen hb
  rcases bs with _ | ⟨b0, bs⟩; · simp at hlen
  rcases bs with _ | ⟨b1, bs⟩; · simp at hlen
  rcases bs with _ | ⟨b2, bs⟩; · simp at hlen
  rcases bs with _ | ⟨b3, bs⟩; · simp at hlen
  rcases bs with _ | ⟨b4, bs⟩; · simp at hlen
  rcases bs with _ | ⟨b5, bs⟩; · simp at hlen
  rcases bs with _ | ⟨b6, bs⟩; · simp at hlen
  rcases bs with _ | ⟨b7, bs⟩; · simp at hlen
  rcases bs with _ | ⟨b8, bs⟩; · simp at hlen
  rcases bs with _ | ⟨b9, bs⟩; · simp at hlen
  rcases bs with _ | ⟨b10, bs⟩; · simp at hlen
  rcases bs with _ | ⟨b11, bs⟩; · simp at hlen
  rcases bs with _ | ⟨b12, bs⟩; · simp at hlen
  rcases bs with _ | ⟨b13, bs⟩; · simp at hlen
  rcases bs with _ | ⟨b14, bs⟩; · simp at hlen
  rcases bs with _ | ⟨b15, bs⟩; · simp at hlen
  rcases bs with _ | ⟨b16, bs⟩; · simp at hlen
  rcases bs with _ | ⟨b17, bs⟩; · simp at hlen
  rcases bs with _ | ⟨b18, bs⟩; · simp at hlen
  rcases bs with _ | ⟨b19, bs⟩; · simp at hlen
  rcases bs with _ | ⟨b20, bs⟩; · simp at hlen
  rcases bs with _ | ⟨b21, bs⟩; · simp at hlen
  rcases bs with _ | ⟨b22, bs⟩; · simp at hlen
  rcases bs with _ | ⟨b23, bs⟩; · simp at hlen
  rcases bs with _ | ⟨b24, bs⟩; · simp at hlen
  rcases bs with _ | ⟨b25, bs⟩; · simp at hlen
  rcases bs with _ | ⟨b26, bs⟩; · simp at hlen
  rcases bs with _ | ⟨b27, bs⟩; · simp at hlen
  rcases bs with _ | ⟨b28, bs⟩; · simp at hlen
  rcases bs with _ | ⟨b29, bs⟩; · simp at hlen
  rcases bs with _ | ⟨bx, bs⟩
  swap
  · simp at hlen
  simp only [List.mem_cons, List.not_mem_nil, or_false, forall_eq_or_imp,
    forall_eq] at hb
  obtain ⟨h0, h1, h2, h3, h4, h5, h6, h7, h8, h9, h10, h11, h12, h13, h14, h15, h16,
    h17, h18, h19, h20, h21, h22, h23, h24, h25, h26, h27, h28, h29⟩ := hb
  simp only [parseHeader, le16, le32, byteAt, List.getD_cons_zero, List.getD_cons_succ]
  simp only [encodeHeader]
  rw [enc32_quad b0 b1 b2 b3 h0 h1 h2 h3, enc16_pair b4 b5 h4 h5, enc16_pair b6 b7 h6 h7,
    enc16_pair b8 b9 h8 h9, enc16_pair b10 b11 h10 h11, enc16_pair b12 b13 h12 h13,
    enc32_quad b14 b15 b16 b17 h14 h15 h16 h17, enc32_quad b18 b19 b20 b21 h18 h19 h20 h21,
    enc32_quad b22 b23 b24 b25 h22 h23 h24 h25, enc16_pair b26 b27 h26 h27,
    enc16_pair b28 b29 h28 h29]
  rfl

/-- Witness for claim C10 at the example header bytes. -/
theorem localfileheader_layout_witness :
    (encodeHeader
        { signature := 0x04034B50, version_needed := 20, flags := 0, compression_method := 0, last_mod_time := 0, last_mod_date := 0, crc32 := 0xDEADBEEF, compressed_size := 5, uncompressed_size := 5, file_name_length := 4, extra_field_length := 0 }).length = 30 ∧
      encodeHeader (parseHeader (exampleBytes.take 30)) = exampleBytes.take 30 :=
  ⟨(localfileheader_layout
      { signature := 0x04034B50, version_needed := 20, flags := 0, compression_method := 0, last_mod_time := 0, last_mod_date := 0, crc32 := 0xDEADBEEF, compressed_size := 5, uncompressed_size := 5, file_name_length := 4, extra_field_length := 0 }
      (exampleBytes.take 30)).1,
   (localfileheader_layout
      { signature := 0x04034B50, version_needed := 20, flags := 0, compression_method := 0, last_mod_time := 0, last_mod_date := 0, crc32 := 0xDEADBEEF, compressed_size := 5, uncompressed_size := 5, file_name_length := 4, extra_field_length := 0 }
      (exampleBytes.take 30)).2.2 (by decide) (by decide)⟩

/-- Claim C6: on a healthy stream holding at least `n` bytes at the
cursor, the length-bounded text read performs exactly one transfer of
`n` code units (the read log grows by the single entry `n`) and returns
those `n` units; and on the example stream of the specification the
record assembly yields `file_name == "test"`, `extra_field == ""` and
`data == "hello"`. -/
theorem read_str_len_exact (n : Nat) (s : FStream) (hn : 0 < n) (hf : s.failbit = false)
    (he : s.eofbit = false) (hle : s.pos + n ≤ s.data.length) :
    Serializer.read_str_len 1 n s =
      SerResult.ok ((s.data.drop s.pos).take n)
        { s with rlog := s.rlog ++ [n], pos := s.pos + n } ∧
    (match filelist exampleStream with
      | SerResult.ok files _ =>
          files.map (fun f => f.file_name) = [[116, 101, 115, 116]] ∧
            files.map (fun f => f.extra_field) = [[]] ∧
            files.map (fun f => f.data) = [[104, 101, 108, 108, 111]]
      | _ => False) := by
  constructor
  · have h := on_read_eq_ok s n hn hf he hle
    simp [Serializer.read_str_len, FStream.on_validate, hf, one_mul, h,
      Status.ok, Status.Success]
  · have hfl : filelist exampleStream = SerResult.ok
        [⟨⟨67324752, 20, 0, 0, 0, 0, 3735928559, 5, 5, 4, 0⟩, [116, 101, 115, 116], [], [104, 101, 108, 108, 111]⟩]
        ⟨exampleBytes, 39, false, false, [30, 4, 0, 5], [], []⟩ := by decide
    rw [hfl]
    simp

/-- Witness for claim C6 on the concrete two-byte stream. -/
theorem read_str_len_exact_witness :
    Serializer.read_str_len 1 2 twoByteStream =
      SerResult.ok [1, 2] { twoByteStream with rlog := [2], pos := 2 } :=
  (read_str_len_exact 2 twoByteStream (by decide) (by decide) (by decide) (by decide)).1

/-- One field read of `filelist`: when the stream from the cursor holds
`bytes` (the field's exact extent) followed by `rest`, the guarded
assignment yields the field's bytes - a zero-length field failing its
`count > 0` precondition degrades to empty without touching the
stream's flags. -/
theorem fieldStep_read (s : FStream) (bytes rest : List Nat) (hf : s.failbit = false)
    (he : s.eofbit = false) (hdrop : s.data.drop s.pos = bytes ++ rest) :
    fieldStep (Serializer.read_str_len 1 bytes.length s) =
      SerResult.ok bytes { s with rlog := s.rlog ++ [bytes.length], pos := s.pos + bytes.length } := by
  cases hb : bytes with
  | nil =>
    simp [Serializer.read_str_len, FStream.on_validate, hf, FStream.on_read, fieldStep,
      Status.ok, Status.Success]
  | cons b bs =>
    have hlen : 0 < bytes.length := by rw [hb]; simp
    have hdlen : s.pos + bytes.length ≤ s.data.length := by
      have := congrArg List.length hdrop
      simp [List.length_drop] at this
      omega
    have hslice : (s.data.drop s.pos).take bytes.length = bytes := by
      rw [hdrop, List.take_left' rfl]
    have h := on_read_eq_ok s bytes.length hlen hf he hdlen
    rw [hslice] at h
    rw [← hb]
    simp [Serializer.read_str_len, FStream.on_validate, hf, one_mul, h,
      Status.ok, Status.Success, fieldStep]

/-- Claim C7 counterexample: on a stream whose header promises a
2-byte name but which holds only one more byte, the name read fails
with the stream's fail state set, and the next field read's
`expect(validate())` terminates the process - `filelist` never returns
a record with empty fields. -/
theorem filelist_truncated_terminates :
    filelist truncStream = SerResult.died kStreamStateInvalid := by
  decide

/-- Claim C7 (amended): if the header read fails, `filelist` returns
the empty vector; when the stream holds the header and the three
announced extents exactly, `filelist` returns the one record assembled
from them in order (a zero-length field reading as empty via its failed
`count > 0` precondition).  But a field read that fails by setting the
stream's fail state makes the next field read terminate the process
(see the counterexample), so "never aborts the record" does not hold. -/
theorem filelist_record_assembly :
    (∀ s : FStream, s.failbit = false → s.data.length < 30 →
      (match filelist s with
        | SerResult.ok files _ => files = []
        | _ => False)) ∧
    (∀ (s : FStream) (hdrBytes name extra dat : List Nat),
      s.failbit = false → s.eofbit = false →
      s.data = hdrBytes ++ name ++ extra ++ dat →
      hdrBytes.length = 30 →
      name.length = (parseHeader hdrBytes).file_name_length →
      extra.length = (parseHeader hdrBytes).extra_field_length →
      dat.length = (parseHeader hdrBytes).compressed_size →
      (match filelist s with
        | SerResult.ok files _ =>
            files = [{ header := parseHeader hdrBytes, file_name := name,
                       extra_field := extra, data := dat }]
        | _ => False)) := by
  constructor
  · intro s hf hlt
    have hpos : ¬ ((0 : Int) < 0) := by omega
    have hle2 : ¬ (30 ≤ s.data.length) := by omega
    cases he : s.eofbit <;>
      simp [filelist, Serializer.read_pod, FStream.on_validate, FStream.on_seek,
        FStream.seekp, FStream.on_read, FStream.readBytes, hf, he, hpos, hlt, hle2,
        Status.ok, Status.Success, padBuffer]
  · intro s hdrBytes name extra dat hf he hdata hh hn hx hd
    rcases s with ⟨d, p, eo, fb, rl, pl, wl⟩
    replace hf : fb = false := hf
    replace he : eo = false := he
    replace hdata : d = hdrBytes ++ name ++ extra ++ dat := hdata
    subst hf
    subst he
    subst hdata
    set D := hdrBytes ++ name ++ extra ++ dat with hD
    have hseek : ((⟨D, p, false, false, rl, pl, wl⟩ : FStream).on_seek 0).2 =
        ⟨D, 0, false, false, rl, pl, wl⟩ := by
      simp [FStream.on_seek, FStream.seekp]
    have hslice : D.take 30 = hdrBytes := by
      rw [hD, List.append_assoc, List.append_assoc]
      exact List.take_left' hh
    have hread := on_read_eq_ok ⟨D, 0, false, false, rl, pl, wl⟩ 30
      (by omega) rfl rfl (by rw [hD]; simp [hh])
    simp only [List.drop_zero, Nat.zero_add, hslice] at hread
    have hpod : Serializer.read_pod 30 nativeEndian ⟨D, 0, false, false, rl, pl, wl⟩ =
        SerResult.ok hdrBytes ⟨D, 30, false, false, rl ++ [30], pl, wl⟩ := by
      simp [Serializer.read_pod, FStream.on_validate, hread, Status.ok, Status.Success]
    have hdrop1 : D.drop 30 = name ++ (extra ++ dat) := by
      rw [hD, List.append_assoc, List.append_assoc]
      exact List.drop_left' hh
    have hdrop2 : D.drop (30 + (parseHeader hdrBytes).file_name_length) = extra ++ dat := by
      have hlen2 : (hdrBytes ++ name).length =
          30 + (parseHeader hdrBytes).file_name_length := by
        simp [hh, hn]
      rw [show D = (hdrBytes ++ name) ++ (extra ++ dat) by rw [hD]; simp [List.append_assoc]]
      exact List.drop_left' hlen2
    have hdrop3 : D.drop (30 + (parseHeader hdrBytes).file_name_length +
        (parseHeader hdrBytes).extra_field_length) = dat ++ [] := by
      have hlen3 : (hdrBytes ++ name ++ extra).length =
          30 + (parseHeader hdrBytes).file_name_length +
            (parseHeader hdrBytes).extra_field_length := by
        simp [hh, hn, hx]
        omega
      rw [List.append_nil, hD]
      exact List.drop_left' hlen3
    have hstep1 := fieldStep_read ⟨D, 30, false, false, rl ++ [30], pl, wl⟩
      name (extra ++ dat) rfl rfl hdrop1
    rw [hn] at hstep1
    have hstep2 := fieldStep_read
      ⟨D, 30 + (parseHeader hdrBytes).file_name_length, false, false,
        rl ++ [30] ++ [(parseHeader hdrBytes).file_name_length], pl, wl⟩
      extra dat rfl rfl hdrop2
    rw [hx] at hstep2
    have hstep3 := fieldStep_read
      ⟨D, 30 + (parseHeader hdrBytes).file_name_length +
          (parseHeader hdrBytes).extra_field_length, false, false,
        rl ++ [30] ++ [(parseHeader hdrBytes).file_name_length] ++
          [(parseHeader hdrBytes).extra_field_length], pl, wl⟩
      dat [] rfl rfl hdrop3
    rw [hd] at hstep3
    simp only [filelist, hseek, hpod, hstep1, hstep2, hstep3]

/-- Witness for the amended claim C7: a headerless stream produces the
empty vector, and the example stream assembles its one record. -/
theorem filelist_record_assembly_witness :
    (match filelist ⟨[1, 2, 3], 0, false, false, [], [], []⟩ with
      | SerResult.ok files _ => files = []
      | _ => False) ∧
    (match filelist exampleStream with
      | SerResult.ok files _ =>
          files = [{ header := parseHeader (exampleBytes.take 30),
                     file_name := [116, 101, 115, 116], extra_field := [],
                     data := [104, 101, 108, 108, 111] }]
      | _ => False) :=
  ⟨filelist_record_assembly.1 ⟨[1, 2, 3], 0, false, false, [], [], []⟩ rfl (by decide),
   filelist_record_assembly.2 exampleStream (exampleBytes.take 30)
     [116, 101, 115, 116] [] [104, 101, 108, 108, 111] rfl rfl (by decide) (by decide)
     (by decide) (by decide) (by decide)⟩

mutual

/-- With the native byte order requested, visiting one field leaves its
bytes untouched. -/
theorem visitField_native (f : FieldTy) (c : List Nat) :
    visitField nativeEndian f c = c := by
  cases f with
  | arith w => simp [visitField, endian_swap]
  | enumF w => simp [visitField, endian_swap]
  | arrF w n => simp [visitField, endian_swap_array]
  | agg fs => simp only [visitField]; exact visitFields_native fs c

/-- With the native byte order requested, the whole field visitation is
the identity on the object representation. -/
theorem visitFields_native (fs : List FieldTy) (c : List Nat) :
    visitFields nativeEndian fs c = c := by
  cases fs with
  | nil => simp [visitFields]
  | cons f fs2 =>
    simp only [visitFields]
    rw [visitField_native f, visitFields_native fs2]
    exact List.take_append_drop _ c

end

/-- Claim C2 counterexample: the serializer in serializer_abstracts.cxx
(the one the ZIP consumer instantiates - its `write(std::string)`
overload is what `zip_extractor_main` calls) returns the raw transferred
bytes from its POD read without any field visitation: for a two-byte
arithmetic field read big-endian it yields `[1, 2]`, although the
claimed per-field conversion would yield `[2, 1]`. -/
theorem read_pod_does_not_visit :
    Serializer.read_pod 2 Endian.big twoByteStream =
      SerResult.ok [1, 2] { twoByteStream with rlog := [2], pos := 2 } ∧
      visitFields Endian.big [FieldTy.arith 2] [1, 2] = [2, 1] ∧
      ([1, 2] : List Nat) ≠ [2, 1] := by
  refine ⟨by decide, by decide, by decide⟩

/-- Claim C2 (amended): the POD-read in the memory.cxx copy of the
serializer performs exactly one backend transfer of `sizeof(T)` bytes
(one new read-log entry) and then applies the field visitor, which
byte-reverses arithmetic and enum fields when the requested order
differs from native, reverses array elements only when the element
width exceeds one byte, recurses into nested aggregates, and is the
identity when the requested order is native; the copy in
serializer_abstracts.cxx performs the same single transfer but returns
the raw bytes unvisited. -/
theorem read_pod_visitor_behavior (agg : List FieldTy) (e : Endian) (s : FStream)
    (hf : s.failbit = false) (he : s.eofbit = false) (hsz : 0 < sizeA agg)
    (hle : s.pos + sizeA agg ≤ s.data.length) :
    Serializer.read_pod_visit agg e s =
      SerResult.ok (visitFields e agg ((s.data.drop s.pos).take (sizeA agg)))
        { s with rlog := s.rlog ++ [sizeA agg], pos := s.pos + sizeA agg } ∧
    Serializer.read_pod (sizeA agg) e s =
      SerResult.ok ((s.data.drop s.pos).take (sizeA agg))
        { s with rlog := s.rlog ++ [sizeA agg], pos := s.pos + sizeA agg } ∧
    (∀ (w : Nat) (c : List Nat), 1 < w →
      visitField Endian.big (FieldTy.arith w) c = c.reverse ∧
        visitField Endian.big (FieldTy.enumF w) c = c.reverse) ∧
    (∀ (n : Nat) (c : List Nat), visitField e (FieldTy.arrF 1 n) c = c) ∧
    (∀ (w n : Nat) (c : List Nat), 1 < w →
      visitField Endian.big (FieldTy.arrF w n) c = revChunks w c) ∧
    (∀ (fs : List FieldTy) (c : List Nat),
      visitField e (FieldTy.agg fs) c = visitFields e fs c) ∧
    (∀ (fs : List FieldTy) (c : List Nat), visitFields nativeEndian fs c = c) := by
  have h := on_read_eq_ok s (sizeA agg) hsz hf he hle
  refine ⟨?_, ?_, ?_, ?_, ?_, ?_, ?_⟩
  · simp [Serializer.read_pod_visit, FStream.on_validate, hf, h, Status.ok, Status.Success]
  · simp [Serializer.read_pod, FStream.on_validate, hf, h, Status.ok, Status.Success]
  · intro w c hw
    have hw2 : ¬ w ≤ 1 := by omega
    constructor <;> simp [visitField, endian_swap, hw2, nativeEndian]
  · intro n c
    simp [visitField, endian_swap_array]
  · intro w n c hw
    have hw2 : ¬ w ≤ 1 := by omega
    simp [visitField, endian_swap_array, hw2, nativeEndian]
  · intro fs c
    simp [visitField]
  · intro fs c
    exact visitFields_native fs c

/-- Witness for the amended claim C2: a four-byte aggregate (one
two-byte arithmetic field followed by a nested aggregate holding one
two-byte enum field) read big-endian from a four-byte stream. -/
theorem read_pod_visitor_behavior_witness :
    Serializer.read_pod_visit [FieldTy.arith 2, FieldTy.agg [FieldTy.enumF 2]] Endian.big
        ⟨[1, 2, 3, 4], 0, false, false, [], [], []⟩ =
      SerResult.ok
        (visitFields Endian.big [FieldTy.arith 2, FieldTy.agg [FieldTy.enumF 2]]
          ((([1, 2, 3, 4] : List Nat).drop 0).take
            (sizeA [FieldTy.arith 2, FieldTy.agg [FieldTy.enumF 2]])))
        { data := [1, 2, 3, 4], pos := 0 + sizeA [FieldTy.arith 2, FieldTy.agg [FieldTy.enumF 2]],
          eofbit := false, failbit := false,
          rlog := [] ++ [sizeA [FieldTy.arith 2, FieldTy.agg [FieldTy.enumF 2]]],
          plog := [], wlog := [] } ∧
      visitFields Endian.big [FieldTy.arith 2, FieldTy.agg [FieldTy.enumF 2]] [1, 2, 3, 4] =
        [2, 1, 4, 3] :=
  ⟨(read_pod_visitor_behavior [FieldTy.arith 2, FieldTy.agg [FieldTy.enumF 2]] Endian.big
      ⟨[1, 2, 3, 4], 0, false, false, [], [], []⟩ rfl rfl (by decide) (by decide)).1,
   by decide⟩

/-- Swapping a unit's bytes does not change whether they are all zero:
the terminator test after the conversion sees the same answer. -/
theorem endian_swap_all_zero (e : Endian) (w : Nat) (u : List Nat) :
    (endian_swap e w u).all (· = 0) = u.all (· = 0) := by
  unfold endian_swap
  split
  · rfl
  split
  · rfl
  · exact List.all_reverse

/-- A zero-filled unit is fixed by the swap. -/
theorem endian_swap_replicate (e : Endian) (w k : Nat) :
    endian_swap e w (List.replicate k 0) = List.replicate k 0 := by
  unfold endian_swap
  split
  · rfl
  split
  · rfl
  · exact List.reverse_replicate k 0

/-- Run of the null-terminated read loop over a stream whose next bytes
are the non-terminator units `us` followed by one zero unit: every unit
is read in its own transfer, endian-converted, and appended - the zero
unit included - and the cursor ends right past the terminator. -/
theorem read_str_null_aux_run (w : Nat) (e : Endian) (hw : 0 < w) :
    ∀ (us : List (List Nat)) (s : FStream) (acc : List (List Nat)),
      s.failbit = false → s.eofbit = false →
      (∀ u ∈ us, u.length = w ∧ ¬ u.all (· = 0) = true) →
      (s.data.drop s.pos).take ((us.length + 1) * w) = us.flatten ++ List.replicate w 0 →
      s.pos + (us.length + 1) * w ≤ s.data.length →
      Serializer.read_str_null_aux w e s acc =
        SerResult.ok (acc ++ us.map (endian_swap e w) ++ [List.replicate w 0])
          { s with pos := s.pos + (us.length + 1) * w,
                   rlog := s.rlog ++ List.replicate (us.length + 1) w } := by
  intro us
  induction us with
  | nil =>
    intro s acc hf he _ hdata hle
    simp only [List.length_nil, Nat.zero_add, one_mul, List.flatten_nil,
      List.nil_append] at hdata hle
    have hread := on_read_eq_ok s w hw hf he hle
    rw [hdata] at hread
    rw [Serializer.read_str_null_aux]
    simp [hread, Status.ok, Status.Success, endian_swap_replicate,
      List.all_eq_true, List.replicate_one]
  | cons u us2 ih =>
    intro s acc hf he hus hdata hle
    obtain ⟨⟨hulen, hunz⟩, hus2⟩ : (u.length = w ∧ ¬ u.all (· = 0) = true) ∧
        (∀ x ∈ us2, x.length = w ∧ ¬ x.all (· = 0) = true) := by
      constructor
      · exact hus u (by simp)
      · intro x hx; exact hus x (by simp [hx])
    have hNle : w ≤ ((u :: us2).length + 1) * w := by
      have : 1 ≤ (u :: us2).length + 1 := by omega
      calc w = 1 * w := by omega
        _ ≤ ((u :: us2).length + 1) * w := Nat.mul_le_mul_right w this
    have hle1 : s.pos + w ≤ s.data.length :=
      le_trans (Nat.add_le_add_left hNle s.pos) hle
    have hfirst : (s.data.drop s.pos).take w = u := by
      have h1 : ((s.data.drop s.pos).take (((u :: us2).length + 1) * w)).take w =
          (s.data.drop s.pos).take w := by
        rw [List.take_take]
        congr 1
        omega
      rw [hdata] at h1
      rw [← h1]
      simp only [List.flatten_cons, List.append_assoc]
      exact List.take_left' hulen
    have hread := on_read_eq_ok s w hw hf he hle1
    rw [hfirst] at hread
    have hdata2 :
        (((({ s with rlog := s.rlog ++ [w], pos := s.pos + w }) : FStream).data.drop
            (s.pos + w)).take ((us2.length + 1) * w)) =
          us2.flatten ++ List.replicate w 0 := by
      have hdropw : (s.data.drop (s.pos + w)) = (s.data.drop s.pos).drop w := by
        rw [List.drop_drop]
      have h2 : ((s.data.drop s.pos).take (((u :: us2).length + 1) * w)).drop w =
          ((s.data.drop s.pos).drop w).take (((u :: us2).length + 1) * w - w) := by
        rw [List.drop_take]
      rw [hdata] at h2
      have h3 : (u ++ (us2.flatten ++ List.replicate w 0)).drop w =
          us2.flatten ++ List.replicate w 0 := List.drop_left' hulen
      simp only [List.flatten_cons, List.append_assoc] at h2
      rw [h3] at h2
      have h4 : ((u :: us2).length + 1) * w - w = (us2.length + 1) * w := by
        simp only [List.length_cons]
        have : (us2.length + 1 + 1) * w = (us2.length + 1) * w + w := by ring
        omega
      rw [h4] at h2
      simp only [← h2, hdropw]
    have hle2 : ({ s with rlog := s.rlog ++ [w], pos := s.pos + w } : FStream).pos +
        (us2.length + 1) * w ≤
        ({ s with rlog := s.rlog ++ [w], pos := s.pos + w } : FStream).data.length := by
      simp only [List.length_cons] at hle
      have : (us2.length + 1 + 1) * w = w + (us2.length + 1) * w := by ring
      simp only []
      omega
    have hrec := ih { s with rlog := s.rlog ++ [w], pos := s.pos + w }
      (acc ++ [endian_swap e w u]) hf he hus2 hdata2 hle2
    have hnz2 : ¬ (endian_swap e w u).all (· = 0) = true := by
      rw [endian_swap_all_zero]
      exact hunz
    rw [Serializer.read_str_null_aux]
    rw [dif_pos (show ((s.on_read w).1).ok = true by
      simp [hread, Status.ok, Status.Success])]
    simp only [hread]
    simp only [hnz2, if_false, hrec]
    simp only [Bool.false_eq_true, if_false]
    congr 1
    · simp
    · simp only [FStream.mk.injEq, List.length_cons, eq_self_iff_true, true_and, and_true]
      constructor
      · ring
      · rw [List.append_assoc]
        simp [List.replicate_succ]

/-- If the stream runs out before a terminator appears, the loop fails
as soon as the short unit read fails: the `OutOfRange` status of that
very `on_read` is returned at once. -/
theorem read_str_null_aux_eof (w : Nat) (e : Endian) (hw : 0 < w) :
    ∀ (us : List (List Nat)) (s : FStream) (acc : List (List Nat)),
      s.failbit = false → s.eofbit = false →
      (∀ u ∈ us, u.length = w ∧ ¬ u.all (· = 0) = true) →
      (s.data.drop s.pos).take (us.length * w) = us.flatten →
      s.pos + us.length * w ≤ s.data.length →
      s.data.length < s.pos + (us.length + 1) * w →
      ∃ s2, Serializer.read_str_null_aux w e s acc =
        SerResult.err ⟨StatusCode.out_of_range, "EOF reached."⟩ s2 := by
  intro us
  induction us with
  | nil =>
    intro s acc hf he _ _ _ hlt
    simp only [List.length_nil, Nat.zero_add, one_mul] at hlt
    have hw2 : ¬ w = 0 := by omega
    have hle2 : ¬ (s.pos + w ≤ s.data.length) := by omega
    have hread2 : s.on_read w =
        (⟨StatusCode.out_of_range, "EOF reached."⟩,
          padBuffer w ((s.data.drop s.pos).take w),
          { s with rlog := s.rlog ++ [w], pos := s.data.length, eofbit := true, failbit := true }) := by
      simp [FStream.on_read, FStream.readBytes, hw2, hf, he, hle2]
    refine ⟨{ s with rlog := s.rlog ++ [w], pos := s.data.length, eofbit := true, failbit := true }, ?_⟩
    rw [Serializer.read_str_null_aux]
    rw [dif_neg (show ¬ ((s.on_read w).1).ok = true by simp [hread2, Status.ok])]
    rw [hread2]
  | cons u us2 ih =>
    intro s acc hf he hus hdata hle hlt
    obtain ⟨⟨hulen, _⟩, hus2⟩ : (u.length = w ∧ ¬ u.all (· = 0) = true) ∧
        (∀ x ∈ us2, x.length = w ∧ ¬ x.all (· = 0) = true) := by
      constructor
      · exact hus u (by simp)
      · intro x hx; exact hus x (by simp [hx])
    have hNle : w ≤ (u :: us2).length * w := by
      have h1 : 1 ≤ (u :: us2).length := by simp
      calc w = 1 * w := by omega
        _ ≤ (u :: us2).length * w := Nat.mul_le_mul_right w h1
    have hle1 : s.pos + w ≤ s.data.length :=
      le_trans (Nat.add_le_add_left hNle s.pos) hle
    have hfirst : (s.data.drop s.pos).take w = u := by
      have h1 : ((s.data.drop s.pos).take ((u :: us2).length * w)).take w =
          (s.data.drop s.pos).take w := by
        rw [List.take_take]
        congr 1
        omega
      rw [hdata] at h1
      rw [← h1]
      simp only [List.flatten_cons]
      exact List.take_left' hulen
    have hread := on_read_eq_ok s w hw hf he hle1
    rw [hfirst] at hread
    have hdata2 :
        (((({ s with rlog := s.rlog ++ [w], pos := s.pos + w }) : FStream).data.drop
            (s.pos + w)).take (us2.length * w)) = us2.flatten := by
      have hdropw : (s.data.drop (s.pos + w)) = (s.data.drop s.pos).drop w := by
        rw [List.drop_drop]
      have h2 : ((s.data.drop s.pos).take ((u :: us2).length * w)).drop w =
          ((s.data.drop s.pos).drop w).take ((u :: us2).length * w - w) := by
        rw [List.drop_take]
      rw [hdata] at h2
      simp only [List.flatten_cons] at h2
      rw [List.drop_left' hulen] at h2
      have h4 : (u :: us2).length * w - w = us2.length * w := by
        simp only [List.length_cons]
        have : (us2.length + 1) * w = us2.length * w + w := by ring
        omega
      rw [h4] at h2
      simp only [← h2, hdropw]
    have hle2 : ({ s with rlog := s.rlog ++ [w], pos := s.pos + w } : FStream).pos +
        us2.length * w ≤
        ({ s with rlog := s.rlog ++ [w], pos := s.pos + w } : FStream).data.length := by
      simp only [List.length_cons] at hle
      have : (us2.length + 1) * w = w + us2.length * w := by ring
      simp only []
      omega
    have hlt2 : ({ s with rlog := s.rlog ++ [w], pos := s.pos + w } : FStream).data.length <
        ({ s with rlog := s.rlog ++ [w], pos := s.pos + w } : FStream).pos +
          (us2.length + 1) * w := by
      simp only [List.length_cons] at hlt
      have : (us2.length + 1 + 1) * w = w + (us2.length + 1) * w := by ring
      simp only []
      omega
    obtain ⟨s2, hrec⟩ := ih { s with rlog := s.rlog ++ [w], pos := s.pos + w }
      (acc ++ [endian_swap e w u]) hf he hus2 hdata2 hle2 hlt2
    have hnz2 : ¬ (endian_swap e w u).all (· = 0) = true := by
      rw [endian_swap_all_zero]
      exact (hus u (by simp)).2
    refine ⟨s2, ?_⟩
    rw [Serializer.read_str_null_aux]
    rw [dif_pos (show ((s.on_read w).1).ok = true by
      simp [hread, Status.ok, Status.Success])]
    simp only [hread]
    simp only [hnz2, Bool.false_eq_true, if_false]
    exact hrec

/-- Claim C5 counterexample: reading the null-terminated string "ab"
returns three units - the terminator is appended before the loop's
exit test, so the accumulated text includes it rather than excluding
it. -/
theorem read_str_null_includes_terminator :
    (match Serializer.read_str_null 1 Endian.little
        ⟨[97, 98, 0, 7], 0, false, false, [], [], []⟩ with
      | SerResult.ok v _ => v = [[97], [98], [0]] ∧ v ≠ [[97], [98]]
      | _ => False) := by
  have h := read_str_null_aux_run 1 Endian.little (by decide) [[97], [98]]
    ⟨[97, 98, 0, 7], 0, false, false, [], [], []⟩ [] rfl rfl (by decide) (by decide)
    (by decide)
  have h2 : Serializer.read_str_null 1 Endian.little
      ⟨[97, 98, 0, 7], 0, false, false, [], [], []⟩ =
      SerResult.ok [[97], [98], [0]] ⟨[97, 98, 0, 7], 3, false, false, [1, 1, 1], [], []⟩ := by
    rw [Serializer.read_str_null]
    simp only [FStream.on_validate, Bool.not_false, Bool.not_true, Bool.false_eq_true,
      if_false]
    exact h
  rw [h2]
  exact ⟨rfl, by decide⟩

/-- Claim C5 (amended): the null-terminated read consumes one code unit
per backend transfer, endian-converts each unit before the terminator
test and before appending, returns the accumulated text INCLUDING the
terminator unit once a zero unit is converted and appended, and fails
immediately with the failing unit's status (here `OutOfRange`) when a
unit read fails. -/
theorem read_str_null_amended (w : Nat) (e : Endian) (us : List (List Nat)) (s : FStream)
    (hw : 0 < w) (hf : s.failbit = false) (he : s.eofbit = false)
    (hus : ∀ u ∈ us, u.length = w ∧ ¬ u.all (· = 0) = true) :
    ((s.data.drop s.pos).take ((us.length + 1) * w) = us.flatten ++ List.replicate w 0 →
      s.pos + (us.length + 1) * w ≤ s.data.length →
      Serializer.read_str_null w e s =
        SerResult.ok (us.map (endian_swap e w) ++ [List.replicate w 0])
          { s with pos := s.pos + (us.length + 1) * w,
                   rlog := s.rlog ++ List.replicate (us.length + 1) w }) ∧
    ((s.data.drop s.pos).take (us.length * w) = us.flatten →
      s.pos + us.length * w ≤ s.data.length →
      s.data.length < s.pos + (us.length + 1) * w →
      ∃ s2, Serializer.read_str_null w e s =
        SerResult.err ⟨StatusCode.out_of_range, "EOF reached."⟩ s2) := by
  constructor
  · intro h1 h2
    rw [Serializer.read_str_null]
    simp only [FStream.on_validate, hf, Bool.not_false, Bool.not_true, Bool.false_eq_true,
      if_false]
    have h := read_str_null_aux_run w e hw us s [] hf he hus h1 h2
    rw [hf] at h
    simpa using h
  · intro h1 h2 h3
    obtain ⟨s2, h⟩ := read_str_null_aux_eof w e hw us s [] hf he hus h1 h2 h3
    refine ⟨s2, ?_⟩
    rw [Serializer.read_str_null]
    simp only [FStream.on_validate, hf, Bool.not_false, Bool.not_true, Bool.false_eq_true,
      if_false]
    exact h

/-- Witness for the amended claim C5: the two-byte stream "h\x00" reads
as the unit 104 followed by the terminator unit, and the terminator-less
stream "a" fails with `OutOfRange`. -/
theorem read_str_null_amended_witness :
    Serializer.read_str_null 1 Endian.little ⟨[104, 0], 0, false, false, [], [], []⟩ =
      SerResult.ok [[104], [0]] ⟨[104, 0], 2, false, false, [1, 1], [], []⟩ ∧
    (∃ s2, Serializer.read_str_null 1 Endian.little ⟨[97], 0, false, false, [], [], []⟩ =
      SerResult.err ⟨StatusCode.out_of_range, "EOF reached."⟩ s2) :=
  ⟨(read_str_null_amended 1 Endian.little [[104]] ⟨[104, 0], 0, false, false, [], [], []⟩
      (by decide) rfl rfl (by decide)).1 (by decide) (by decide),
   (read_str_null_amended 1 Endian.little [[97]] ⟨[97], 0, false, false, [], [], []⟩
      (by decide) rfl rfl (by decide)).2 (by decide) (by decide) (by decide)⟩
